import Mathlib

/-!
Verification of the repomon fetch engine (internal/git/monitor.go and its
cloner-abstraction revision). The definitions below are a shallow embedding
of the Monitor data model and of the fetch path: GetRecentCommits,
getRepoCommits, cloneRemoteRepo, reference resolution, the commit walk and
getOneLineCommitMessage. Instants are modelled as integers (seconds); the
external git library and the filesystem are modelled as an explicit
environment record consulted exactly where the Go code performs the
corresponding call.
-/

namespace Repomon

/-- A repository descriptor (config.Repo): name, optional local path,
optional remote URL, optional branch. Go zero values are empty strings. -/
structure Repo where
  name : String
  path : String
  url : String
  branch : String
deriving DecidableEq, Repr

/-- A git commit as surfaced by the monitor (git.Commit). -/
structure Commit where
  hash : String
  message : String
  author : String
  timestamp : Int
deriving DecidableEq, Repr

/-- A raw commit as yielded by the go-git history walk (object.Commit),
restricted to the fields getRepoCommits reads: hash, full message, author
name and author timestamp. -/
structure GoCommit where
  hash : String
  message : String
  authorName : String
  authorWhen : Int
deriving DecidableEq, Repr

/-- The error outcomes of the fetch path. Constructors mirror the fmt.Errorf
sites of the monitor; a constructor taking another error models Go error
wrapping with the w verb, which keeps the wrapped error intact inside the
new one. Error strings produced by the external git library are abstracted;
the data the monitor itself embeds (clone tool output, the missing path,
the branch name) is kept. -/
inductive GitError where
  | mkdirTempFailed
  | gitCloneFailed (output : String)
  | openClonedFailed
  | cloneRemoteFailed (inner : GitError)
  | pathNotExist (path : String)
  | openRepoFailed
  | configMissingPathUrl
  | resolveBranchFailed (branch : String)
  | headFailed
  | logFailed
deriving DecidableEq, Repr

/-- Result for a single repository (git.RepoResult). The Go zero value of
the Commits slice is modelled as the empty list. -/
structure RepoResult where
  repo : Repo
  commits : List Commit
  error : Option GitError
deriving DecidableEq, Repr

/-- The read-only view of an opened repository that getRepoCommits
consults: fully resolved references (gitRepo.Reference with resolution),
the HEAD resolution (gitRepo.Head), and the walk that gitRepo.Log yields
from a given start hash, in committer-time order, newest first. -/
structure GitRepo where
  refs : List (String × String)
  head : Option String
  logs : List (String × List GoCommit)
deriving DecidableEq, Repr

/-- The ambient effects one GetRecentCommits pass reads: the clock, the
temp-dir allocator, the filesystem, and the pluggable cloner. The context
is reduced to its cancellation flag; cloneOutcome receives that flag
because exec.CommandContext ties the clone subprocess to the context, and
the clone call is the only consumer of the context in the fetch path
(yielding some error output on failure, none on success). -/
structure Env where
  now : Int
  ctxCancelled : Bool
  mkdirTempOk : Bool
  tempDirName : String
  pathExists : String → Bool
  plainOpenLocal : String → Option GitRepo
  cloneOutcome : Bool → String → String → Option String
  plainOpenCloned : String → Option GitRepo

/-- plumbing.NewBranchReferenceName: the refs-heads prefix. -/
def newBranchReferenceName (b : String) : String := "refs/heads/" ++ b

/-- Reference resolution of getRepoCommits: a non-empty branch is first
resolved as a named branch reference, then retried as a raw reference
name; an empty branch resolves HEAD. -/
def resolveRef (gitRepo : GitRepo) (branch : String) : Except GitError String :=
  if branch ≠ "" then
    match gitRepo.refs.lookup (newBranchReferenceName branch) with
    | some h => .ok h
    | none =>
      match gitRepo.refs.lookup branch with
      | some h => .ok h
      | none => .error (.resolveBranchFailed branch)
  else
    match gitRepo.head with
    | some h => .ok h
    | none => .error .headFailed

/-- Seconds in one day, the time scale of AddDate with a day offset. -/
def secondsPerDay : Int := 86400

/-- The cutoff instant: time.Now with AddDate of minus days days. -/
def cutoffOf (now : Int) (days : Int) : Int := now - secondsPerDay * days

/-- Go strings.TrimSpace, on the character sequence of the string: drop
whitespace from both ends. Go trims Unicode space; the model trims ASCII
whitespace, which covers the characters the monitor ever handles. -/
def trimSpace (s : String) : String :=
  String.mk
    (((s.data.dropWhile Char.isWhitespace).reverse.dropWhile
        Char.isWhitespace).reverse)

/-- Go strings.Split with the newline separator, on the character
sequence: the list of chunks between newline characters (n newlines give
n plus one chunks, empty chunks included). -/
def splitNlChars : List Char → List (List Char)
  | [] => [[]]
  | c :: rest =>
    if c = Char.ofNat 10 then [] :: splitNlChars rest
    else
      match splitNlChars rest with
      | [] => [[c]]
      | l :: ls => (c :: l) :: ls

/-- The line list of a message, as strings.Split with newline yields it. -/
def splitLines (s : String) : List String :=
  (splitNlChars s.data).map String.mk

/-- The line selection loop of getOneLineCommitMessage: first line whose
trim is non-empty, already trimmed. -/
def firstNonBlankLine : List String → Option String
  | [] => none
  | line :: rest =>
    let t := trimSpace line
    if t ≠ "" then some t else firstNonBlankLine rest

/-- getOneLineCommitMessage: split on the newline character, return the
first non-blank line after trimming, else the trimmed whole message. -/
def getOneLineCommitMessage (message : String) : String :=
  match firstNonBlankLine (splitLines message) with
  | some line => line
  | none => trimSpace message

/-- The Commit record built by the ForEach body. -/
def mkCommit (c : GoCommit) : Commit :=
  { hash := c.hash, message := getOneLineCommitMessage c.message,
    author := c.authorName, timestamp := c.authorWhen }

/-- The commitIter.ForEach body of getRepoCommits: append while the author
timestamp is not before the cutoff; the first visited commit before the
cutoff returns the stop-iteration error, which ends the walk and is then
swallowed by the caller, keeping the commits accumulated so far. -/
def walkCommits (cutoff : Int) : List GoCommit → List Commit
  | [] => []
  | c :: rest =>
    if c.authorWhen < cutoff then []
    else mkCommit c :: walkCommits cutoff rest

/-- The tail of getRepoCommits once a repository is open: resolve the
reference, obtain the log from its hash, walk it against the cutoff. The
short-circuited walk is a success, not an error. -/
def fetchFromRepo (env : Env) (days : Int) (gitRepo : GitRepo)
    (branch : String) : Except GitError (List Commit) :=
  match resolveRef gitRepo branch with
  | .error e => .error e
  | .ok startHash =>
    match gitRepo.logs.lookup startHash with
    | none => .error .logFailed
    | some walk => .ok (walkCommits (cutoffOf env.now days) walk)

/-- cloneRemoteRepo: make a temp directory, run the cloner, open the clone.
The second component is the set of live temp directories (the filesystem
state threaded through the call); both failure paths remove the directory
just created, the success path returns it still live together with its
name. -/
def cloneRemoteRepo (env : Env) (repoURL : String) (branch : String)
    (fs : List String) : Except GitError (GitRepo × String) × List String :=
  if env.mkdirTempOk then
    let tempDir := env.tempDirName
    let fs1 := tempDir :: fs
    match env.cloneOutcome env.ctxCancelled repoURL branch with
    | some output => (.error (.gitCloneFailed output), fs1.erase tempDir)
    | none =>
      match env.plainOpenCloned repoURL with
      | none => (.error .openClonedFailed, fs1.erase tempDir)
      | some gitRepo => (.ok (gitRepo, tempDir), fs1)
  else (.error .mkdirTempFailed, fs)

/-- getRepoCommits for one descriptor. A non-empty url clones (the deferred
RemoveAll erases the temp directory when the function returns, on every
path after a successful clone); otherwise a non-empty path is stat-checked
and opened in place; otherwise the call fails with the configuration
error. The second component is the filesystem state after the call. -/
def getRepoCommits (env : Env) (days : Int) (fs : List String)
    (repo : Repo) : Except GitError (List Commit) × List String :=
  if repo.url ≠ "" then
    match cloneRemoteRepo env repo.url repo.branch fs with
    | (.error e, fs1) => (.error (.cloneRemoteFailed e), fs1)
    | (.ok (gitRepo, tempDir), fs1) =>
      let res := fetchFromRepo env days gitRepo repo.branch
      (res, if tempDir ≠ "" then fs1.erase tempDir else fs1)
  else if repo.path ≠ "" then
    if env.pathExists repo.path then
      match env.plainOpenLocal repo.path with
      | none => (.error .openRepoFailed, fs)
      | some gitRepo => (fetchFromRepo env days gitRepo repo.branch, fs)
    else (.error (.pathNotExist repo.path), fs)
  else (.error .configMissingPathUrl, fs)

/-- The body of one goroutine of GetRecentCommits: run getRepoCommits and
pack the outcome into the RepoResult destined for this slot. On error the
zero-value Commits slice stays empty; on success the error stays nil. -/
def fetchTask (env : Env) (days : Int) (repo : Repo) : RepoResult :=
  match (getRepoCommits env days [] repo).1 with
  | .error e => { repo := repo, commits := [], error := some e }
  | .ok commits => { repo := repo, commits := commits, error := none }

/-- The zero value of config.Repo. -/
def emptyRepo : Repo := { name := "", path := "", url := "", branch := "" }

/-- The zero value of a result slot, as allocated by make. -/
def emptyRepoResult : RepoResult :=
  { repo := emptyRepo, commits := [], error := none }

/-- The pre-allocated result slice: one zero-value slot per descriptor,
sized before any task starts. -/
def initSlots (repos : List Repo) : List RepoResult :=
  repos.map (fun _ => emptyRepoResult)

/-- Completion of the fetch goroutines in the order given: each completing
task writes its own outcome at its own index and nothing else. -/
def applyWrites (env : Env) (days : Int) (repos : List Repo)
    (slots : List RepoResult) (order : List Nat) : List RepoResult :=
  order.foldl
    (fun acc i => acc.set i (fetchTask env days (repos.getD i emptyRepo)))
    slots

/-- GetRecentCommits under an explicit completion order of its goroutines:
pre-allocate the slots, let every task write its own index in completion
order, join, and return a nil overall error. -/
def getRecentCommitsSched (env : Env) (days : Int) (repos : List Repo)
    (order : List Nat) : List RepoResult × Option GitError :=
  (applyWrites env days repos (initSlots repos) order, none)

/-- GetRecentCommits with the canonical completion order. -/
def getRecentCommits (env : Env) (days : Int) (repos : List Repo) :
    List RepoResult × Option GitError :=
  getRecentCommitsSched env days repos (List.range repos.length)

/-! Concrete fixtures used by the witnesses: a small environment with one
local repository, one missing local path, one failing remote and one good
remote. -/

def localPath : String := "/tmp/r1"

def missingPath : String := "/missing/repo"

def badUrl : String := "https://bad.example/repo.git"

def tmpDirW : String := "/tmp/repomon-123"

def cloneAuthMsg : String := "remote authentication required"

def msgFeature : String := "Add new feature\n\nDetailed description here"

def msgFeatureLine : String := "Add new feature"

def msgBlank : String := "   \n\t\n "

def goCommitA : GoCommit :=
  { hash := "a1", message := msgFeature, authorName := "alice",
    authorWhen := 500 }

def goCommitB : GoCommit :=
  { hash := "b2", message := "Fix bug", authorName := "bob",
    authorWhen := 300 }

def goCommitC : GoCommit :=
  { hash := "c3", message := "Old work", authorName := "carol",
    authorWhen := 50 }

def walkW : List GoCommit := [goCommitA, goCommitB, goCommitC]

def gitRepoW : GitRepo :=
  { refs := [], head := some "a1", logs := [("a1", walkW)] }

def repoLocalW : Repo :=
  { name := "local1", path := localPath, url := "", branch := "" }

def repoMissingW : Repo :=
  { name := "gone", path := missingPath, url := "", branch := "" }

def repoRemoteBadW : Repo :=
  { name := "remote-bad", path := "", url := badUrl, branch := "" }

def envW : Env :=
  { now := 86500
    ctxCancelled := false
    mkdirTempOk := true
    tempDirName := tmpDirW
    pathExists := fun p => p == localPath
    plainOpenLocal := fun p => if p == localPath then some gitRepoW else none
    cloneOutcome := fun _ url _ =>
      if url == badUrl then some cloneAuthMsg else none
    plainOpenCloned := fun _ => some gitRepoW }

def reposW : List Repo := [repoLocalW, repoMissingW]

def featureBranch : String := "feature-x"

def reposIso : List Repo := [repoLocalW, repoRemoteBadW, repoLocalW]

/-! Generic lemmas about writing disjoint slots in completion order. -/

theorem length_foldl_set {α : Type} (f : Nat → α) (order : List Nat)
    (slots : List α) :
    (order.foldl (fun acc i => acc.set i (f i)) slots).length =
      slots.length := by
  induction order generalizing slots with
  | nil => rfl
  | cons j rest ih =>
    rw [List.foldl_cons, ih]
    simp

theorem getD_foldl_set {α : Type} (f : Nat → α) (d : α) (order : List Nat) :
    ∀ (slots : List α) (i : Nat), i < slots.length →
      (order.foldl (fun acc i => acc.set i (f i)) slots).getD i d =
        if i ∈ order then f i else slots.getD i d := by
  induction order with
  | nil =>
    intro slots i hi
    simp
  | cons j rest ih =>
    intro slots i hi
    rw [List.foldl_cons]
    rw [ih (slots.set j (f j)) i (by simpa using hi)]
    by_cases hmem : i ∈ rest
    · simp [hmem]
    · by_cases hij : i = j
      · subst hij
        simp [hmem, List.getD_eq_getElem?_getD, List.getElem?_set_self hi]
      · have hji : j ≠ i := fun h => hij h.symm
        simp [hmem, hij, List.getD_eq_getElem?_getD,
          List.getElem?_set_ne hji]

theorem sched_length (env : Env) (days : Int) (repos : List Repo)
    (order : List Nat) :
    (getRecentCommitsSched env days repos order).1.length = repos.length := by
  unfold getRecentCommitsSched applyWrites
  rw [length_foldl_set]
  simp [initSlots]

theorem perm_mem_order {order : List Nat} {n : Nat}
    (hperm : order.Perm (List.range n)) : ∀ k, k < n → k ∈ order := by
  intro k hk
  exact hperm.mem_iff.mpr (List.mem_range.mpr hk)

theorem sched_getD (env : Env) (days : Int) (repos : List Repo)
    (order : List Nat) (hall : ∀ k, k < repos.length → k ∈ order)
    (i : Nat) (hi : i < repos.length) :
    ((getRecentCommitsSched env days repos order).1).getD i emptyRepoResult =
      fetchTask env days (repos.getD i emptyRepo) := by
  unfold getRecentCommitsSched applyWrites
  rw [getD_foldl_set _ _ _ (initSlots repos) i (by simp [initSlots, hi])]
  simp [hall i hi]

theorem fetchTask_repo (env : Env) (days : Int) (repo : Repo) :
    (fetchTask env days repo).repo = repo := by
  unfold fetchTask
  cases h : (getRepoCommits env days [] repo).1 <;> simp

theorem fetchTask_error (env : Env) (days : Int) (repo : Repo)
    (e : GitError) (h : (getRepoCommits env days [] repo).1 = .error e) :
    (fetchTask env days repo).error = some e ∧
      (fetchTask env days repo).commits = [] := by
  unfold fetchTask
  rw [h]
  exact ⟨rfl, rfl⟩

/-- Claim C1: for every descriptor list of length N and every completion
order of the concurrent per-repository fetch tasks, GetRecentCommits
returns exactly N results and the result at index i carries the input
descriptor at index i. -/
theorem getRecentCommits_index_aligned
    (env : Env) (days : Int) (repos : List Repo) (order : List Nat)
    (hperm : order.Perm (List.range repos.length)) :
    (getRecentCommitsSched env days repos order).1.length = repos.length ∧
    ∀ i, i < repos.length →
      (((getRecentCommitsSched env days repos order).1).getD i
          emptyRepoResult).repo = repos.getD i emptyRepo := by
  refine ⟨sched_length env days repos order, ?_⟩
  intro i hi
  rw [sched_getD env days repos order (perm_mem_order hperm) i hi]
  exact fetchTask_repo env days (repos.getD i emptyRepo)

/-- Witness for C1 at a concrete two-descriptor batch completed in reversed
order. -/
theorem getRecentCommits_index_aligned_witness :
    (getRecentCommitsSched envW 1 reposW [1, 0]).1.length = 2 ∧
    ((getRecentCommitsSched envW 1 reposW [1, 0]).1.getD 0
        emptyRepoResult).repo = repoLocalW := by
  have h := getRecentCommits_index_aligned envW 1 reposW [1, 0] (by decide)
  refine ⟨h.1, ?_⟩
  rw [h.2 0 (by decide)]
  rfl

/-- Claim C2: GetRecentCommits never fails as a whole operation: the
overall error is nil for every input and ordering, there is one result per
descriptor, every slot is exactly the outcome of its own fetch task (so a
failure never unwinds into the join or touches a sibling slot), and a
per-repository failure is stored in that element alone as its error, with
empty commits. -/
theorem getRecentCommits_never_fails_whole
    (env : Env) (days : Int) (repos : List Repo) (order : List Nat)
    (hperm : order.Perm (List.range repos.length)) :
    (getRecentCommitsSched env days repos order).2 = none ∧
    (getRecentCommitsSched env days repos order).1.length = repos.length ∧
    (∀ i, i < repos.length →
      ((getRecentCommitsSched env days repos order).1).getD i
          emptyRepoResult =
        fetchTask env days (repos.getD i emptyRepo)) ∧
    (∀ i e, i < repos.length →
      (getRepoCommits env days [] (repos.getD i emptyRepo)).1 = .error e →
      (((getRecentCommitsSched env days repos order).1).getD i
          emptyRepoResult).error = some e ∧
      (((getRecentCommitsSched env days repos order).1).getD i
          emptyRepoResult).commits = []) := by
  refine ⟨rfl, sched_length env days repos order, ?_, ?_⟩
  · intro i hi
    exact sched_getD env days repos order (perm_mem_order hperm) i hi
  · intro i e hi he
    rw [sched_getD env days repos order (perm_mem_order hperm) i hi]
    exact fetchTask_error env days (repos.getD i emptyRepo) e he

/-- Witness for C2: in the concrete batch the missing-path descriptor puts
its not-found error in its own slot while the overall call reports no
error. -/
theorem getRecentCommits_never_fails_whole_witness :
    (getRecentCommitsSched envW 1 reposW [1, 0]).2 = none ∧
    ((getRecentCommitsSched envW 1 reposW [1, 0]).1.getD 1
        emptyRepoResult).error = some (GitError.pathNotExist missingPath) := by
  have h := getRecentCommits_never_fails_whole envW 1 reposW [1, 0]
    (by decide)
  refine ⟨h.1, ?_⟩
  exact (h.2.2.2 1 (GitError.pathNotExist missingPath) (by decide) rfl).1

/-! Message normalization. -/

theorem firstNonBlank_eq_find (ls : List String) :
    firstNonBlankLine ls =
      (ls.find? (fun s => trimSpace s != "")).map (fun s => trimSpace s) := by
  induction ls with
  | nil => rfl
  | cons l rest ih =>
    by_cases h : trimSpace l = ""
    · simp [firstNonBlankLine, h, ih]
    · simp [firstNonBlankLine, h]

theorem firstNonBlank_none {ls : List String}
    (h : ls.all (fun s => trimSpace s == "")) :
    firstNonBlankLine ls = none := by
  induction ls with
  | nil => rfl
  | cons l rest ih =>
    simp only [List.all_cons, Bool.and_eq_true, beq_iff_eq] at h
    simp [firstNonBlankLine, h.1, ih h.2]

/-- Claim C6: normalization returns the trim of the first line that is
non-blank after trimming; when every line is blank it returns the trimmed
whole message; the two reference examples follow. -/
theorem getOneLine_normalization :
    (∀ m l, (splitLines m).find? (fun s => trimSpace s != "") = some l →
      getOneLineCommitMessage m = trimSpace l) ∧
    (∀ m, ((splitLines m).all fun s => trimSpace s == "") →
      getOneLineCommitMessage m = trimSpace m) ∧
    getOneLineCommitMessage msgFeature = msgFeatureLine ∧
    getOneLineCommitMessage msgBlank = "" := by
  refine ⟨?_, ?_, by decide, by decide⟩
  · intro m l hfind
    unfold getOneLineCommitMessage
    rw [firstNonBlank_eq_find, hfind]
    rfl
  · intro m hall
    unfold getOneLineCommitMessage
    rw [firstNonBlank_none hall]

/-- Witness for C6: the reference example normalizes to its first line. -/
theorem getOneLine_normalization_witness :
    getOneLineCommitMessage msgFeature = msgFeatureLine :=
  getOneLine_normalization.2.2.1

/-! The commit walk against the cutoff. -/

def notBeforeCutoff (cutoff : Int) : GoCommit → Bool :=
  fun c => decide (cutoff ≤ c.authorWhen)

theorem walkCommits_takeWhile (cutoff : Int) (walk : List GoCommit) :
    walkCommits cutoff walk =
      (walk.takeWhile (notBeforeCutoff cutoff)).map mkCommit := by
  induction walk with
  | nil => rfl
  | cons c rest ih =>
    by_cases h : c.authorWhen < cutoff
    · have : notBeforeCutoff cutoff c = false := by
        simp [notBeforeCutoff]
        omega
      simp [walkCommits, h, List.takeWhile_cons, this]
    · have : notBeforeCutoff cutoff c = true := by
        simp [notBeforeCutoff]
        omega
      simp [walkCommits, h, List.takeWhile_cons, this, ih]

theorem walkCommits_filter_of_sorted (cutoff : Int) (walk : List GoCommit)
    (hsorted : walk.Pairwise (fun a b => b.authorWhen ≤ a.authorWhen)) :
    walkCommits cutoff walk =
      (walk.filter (notBeforeCutoff cutoff)).map mkCommit := by
  induction walk with
  | nil => rfl
  | cons c rest ih =>
    rcases List.pairwise_cons.mp hsorted with ⟨hhead, htail⟩
    by_cases h : c.authorWhen < cutoff
    · have hc : notBeforeCutoff cutoff c = false := by
        simp [notBeforeCutoff]
        omega
      have hrest : rest.filter (notBeforeCutoff cutoff) = [] := by
        rw [List.filter_eq_nil_iff]
        intro b hb
        have := hhead b hb
        simp [notBeforeCutoff]
        omega
      simp [walkCommits, h, hc, hrest]
    · have hc : notBeforeCutoff cutoff c = true := by
        simp [notBeforeCutoff]
        omega
      simp [walkCommits, h, hc, ih htail]

/-- Claim C3: for a walk reached with cutoff equal to now minus the
lookback window, the walk keeps exactly the visited commits whose author
timestamp is at least the cutoff (boundary included), it stops at the
first visited commit strictly before the cutoff, the result is the
newest-first prefix order of the walk, and the short-circuit is reported
as a success of getRepoCommits, not an error. -/
theorem walk_cutoff_semantics (cutoff : Int) (walk : List GoCommit)
    (hsorted : walk.Pairwise (fun a b => b.authorWhen ≤ a.authorWhen)) :
    walkCommits cutoff walk =
      (walk.filter (notBeforeCutoff cutoff)).map mkCommit ∧
    walkCommits cutoff walk =
      (walk.takeWhile (notBeforeCutoff cutoff)).map mkCommit ∧
    (walkCommits cutoff walk).Pairwise
      (fun a b => b.timestamp ≤ a.timestamp) ∧
    (∀ (env : Env) (days : Int) (gitRepo : GitRepo) (branch h : String),
      resolveRef gitRepo branch = .ok h →
      gitRepo.logs.lookup h = some walk →
      cutoff = cutoffOf env.now days →
      fetchFromRepo env days gitRepo branch = .ok (walkCommits cutoff walk)) := by
  refine ⟨walkCommits_filter_of_sorted cutoff walk hsorted,
    walkCommits_takeWhile cutoff walk, ?_, ?_⟩
  · rw [walkCommits_takeWhile]
    refine List.Pairwise.map _ ?_
      ((hsorted.sublist (List.takeWhile_sublist _)))
    intro a b hab
    simpa [mkCommit] using hab
  · intro env days gitRepo branch h hres hlog hcut
    subst hcut
    unfold fetchFromRepo
    simp only [hres, hlog]

/-- Witness for C3 on the concrete three-commit walk with cutoff 100: the
two recent commits survive, the pre-cutoff one stops the walk. -/
theorem walk_cutoff_semantics_witness :
    walkCommits 100 walkW =
      (walkW.filter (notBeforeCutoff 100)).map mkCommit :=
  (walk_cutoff_semantics 100 walkW (by decide)).1

/-! Branching policy of the per-repository fetch. -/

/-- Claim C5: getRepoCommits branches in a fixed order. A non-empty url
takes the clone path even when the path is also set (the path is ignored);
with an empty url, a non-empty path is stat-checked, failing with the
path-not-exist error when absent, and otherwise opened in place with no
change to the filesystem state (no copy, no scratch directory); with both
empty the call fails at once with the configuration error, returning no
commits. -/
theorem getRepoCommits_branching
    (env : Env) (days : Int) (fs : List String) (repo : Repo) :
    (repo.url ≠ "" →
      getRepoCommits env days fs repo =
        getRepoCommits env days fs { repo with path := "" }) ∧
    (repo.url = "" → repo.path ≠ "" → env.pathExists repo.path = false →
      getRepoCommits env days fs repo =
        (.error (.pathNotExist repo.path), fs)) ∧
    (∀ gitRepo, repo.url = "" → repo.path ≠ "" →
      env.pathExists repo.path = true →
      env.plainOpenLocal repo.path = some gitRepo →
      getRepoCommits env days fs repo =
        (fetchFromRepo env days gitRepo repo.branch, fs)) ∧
    (repo.url = "" → repo.path = "" →
      getRepoCommits env days fs repo =
        (.error .configMissingPathUrl, fs)) := by
  refine ⟨?_, ?_, ?_, ?_⟩
  · intro hurl
    unfold getRepoCommits
    simp [hurl]
  · intro hurl hpath hstat
    unfold getRepoCommits
    simp [hurl, hpath, hstat]
  · intro gitRepo hurl hpath hstat hopen
    unfold getRepoCommits
    simp [hurl, hpath, hstat, hopen]
  · intro hurl hpath
    unfold getRepoCommits
    simp [hurl, hpath]

/-- Witness for C5 at concrete descriptors: the empty descriptor fails
with the configuration error and the missing path with the not-found
error. -/
theorem getRepoCommits_branching_witness :
    getRepoCommits envW 1 [] emptyRepo =
      (.error .configMissingPathUrl, []) ∧
    getRepoCommits envW 1 [] repoMissingW =
      (.error (.pathNotExist missingPath), []) := by
  refine ⟨(getRepoCommits_branching envW 1 [] emptyRepo).2.2.2 rfl rfl, ?_⟩
  have h := (getRepoCommits_branching envW 1 [] repoMissingW).2.1 rfl
    (by decide) (by decide)
  simpa using h

/-! Reference resolution. -/

/-- Claim C7: with a non-empty branch, resolution first tries the named
branch reference, then retries the raw reference name, and only after both
fail returns the resolve-branch error; with an empty branch HEAD is
resolved, and its failure is the head error. Either failure becomes the
error of that repository's own fetch outcome, with empty commits. -/
theorem resolveRef_policy :
    (∀ g b h, b ≠ "" →
      g.refs.lookup (newBranchReferenceName b) = some h →
      resolveRef g b = .ok h) ∧
    (∀ g b h, b ≠ "" →
      g.refs.lookup (newBranchReferenceName b) = none →
      g.refs.lookup b = some h →
      resolveRef g b = .ok h) ∧
    (∀ g b, b ≠ "" →
      g.refs.lookup (newBranchReferenceName b) = none →
      g.refs.lookup b = none →
      resolveRef g b = .error (.resolveBranchFailed b)) ∧
    (∀ g b h, b = "" → g.head = some h → resolveRef g b = .ok h) ∧
    (∀ g b, b = "" → g.head = none →
      resolveRef g b = .error .headFailed) ∧
    (∀ (env : Env) (days : Int) (repo : Repo) g e,
      repo.url = "" → repo.path ≠ "" → env.pathExists repo.path = true →
      env.plainOpenLocal repo.path = some g →
      resolveRef g repo.branch = .error e →
      fetchTask env days repo =
        { repo := repo, commits := [], error := some e }) := by
  refine ⟨?_, ?_, ?_, ?_, ?_, ?_⟩
  · intro g b h hb h1
    unfold resolveRef
    simp [hb, h1]
  · intro g b h hb h1 h2
    unfold resolveRef
    simp [hb, h1, h2]
  · intro g b hb h1 h2
    unfold resolveRef
    simp [hb, h1, h2]
  · intro g b h hb hh
    subst hb
    unfold resolveRef
    simp [hh]
  · intro g b hb hh
    subst hb
    unfold resolveRef
    simp [hh]
  · intro env days repo g e hurl hpath hstat hopen hres
    have hget : (getRepoCommits env days [] repo).1 = .error e := by
      unfold getRepoCommits
      simp [hurl, hpath, hstat, hopen, fetchFromRepo, hres]
    unfold fetchTask
    rw [hget]

/-- Witness for C7: a repository with neither the named branch nor the raw
reference yields the resolve-branch error. -/
theorem resolveRef_policy_witness :
    resolveRef gitRepoW featureBranch =
      .error (.resolveBranchFailed featureBranch) :=
  resolveRef_policy.2.2.1 gitRepoW featureBranch (by decide) rfl rfl

/-! Scratch directory lifecycle. -/

theorem cloneRemoteRepo_cases (env : Env) (url branch : String)
    (fs : List String) :
    (∃ e, cloneRemoteRepo env url branch fs = (.error e, fs)) ∨
    (∃ g, cloneRemoteRepo env url branch fs =
      (.ok (g, env.tempDirName), env.tempDirName :: fs)) := by
  unfold cloneRemoteRepo
  by_cases hmk : env.mkdirTempOk
  · simp only [hmk, if_true]
    cases hco : env.cloneOutcome env.ctxCancelled url branch with
    | some output =>
      exact .inl ⟨.gitCloneFailed output, by rw [List.erase_cons_head]⟩
    | none =>
      cases hop : env.plainOpenCloned url with
      | none =>
        exact .inl ⟨.openClonedFailed, by rw [List.erase_cons_head]⟩
      | some g => exact .inr ⟨g, rfl⟩
  · simp only [hmk, if_false]
    exact .inl ⟨.mkdirTempFailed, rfl⟩

/-- Claim C8: for every remote descriptor, the scratch directory made to
materialize the clone is gone from the filesystem state by the time
getRepoCommits returns, on every exit path: mkdir failure, clone failure,
failure to open the clone, reference or walk failure, and success. -/
theorem scratch_dir_removed (env : Env) (days : Int) (fs : List String)
    (repo : Repo) (hurl : repo.url ≠ "")
    (hname : env.tempDirName ≠ "") :
    (getRepoCommits env days fs repo).2 = fs := by
  unfold getRepoCommits
  rw [if_pos hurl]
  rcases cloneRemoteRepo_cases env repo.url repo.branch fs with
    ⟨e, he⟩ | ⟨g, hg⟩
  · rw [he]
  · rw [hg]
    simp only []
    rw [if_pos hname, List.erase_cons_head]

/-- Witness for C8: the failing remote descriptor leaves the filesystem
state unchanged. -/
theorem scratch_dir_removed_witness :
    (getRepoCommits envW 1 [] repoRemoteBadW).2 = [] :=
  scratch_dir_removed envW 1 [] repoRemoteBadW (by decide) (by decide)

/-! Clone failure isolation. -/

theorem getRepoCommits_cloneFail (env : Env) (days : Int)
    (fs : List String) (repo : Repo) (msg : String)
    (hurl : repo.url ≠ "") (hmk : env.mkdirTempOk = true)
    (hclone : env.cloneOutcome env.ctxCancelled repo.url repo.branch =
      some msg) :
    getRepoCommits env days fs repo =
      (.error (.cloneRemoteFailed (.gitCloneFailed msg)), fs) := by
  unfold getRepoCommits cloneRemoteRepo
  simp [hurl, hmk, hclone, List.erase_cons_head]

/-- Claim C9: when the cloner fails for one remote descriptor of a batch,
the result list still has one entry per descriptor; exactly the failing
descriptor's slot carries the clone failure, with the cloner's own output
kept intact inside the two wrapping errors, and no commits; every other
slot is exactly the outcome of its own fetch task, unaffected. -/
theorem clone_failure_isolated
    (env : Env) (days : Int) (repos : List Repo) (order : List Nat)
    (hperm : order.Perm (List.range repos.length))
    (i : Nat) (hi : i < repos.length) (msg : String)
    (hurl : (repos.getD i emptyRepo).url ≠ "")
    (hmk : env.mkdirTempOk = true)
    (hclone : env.cloneOutcome env.ctxCancelled
        (repos.getD i emptyRepo).url
        (repos.getD i emptyRepo).branch = some msg) :
    (getRecentCommitsSched env days repos order).1.length = repos.length ∧
    ((getRecentCommitsSched env days repos order).1.getD i
        emptyRepoResult).error =
      some (.cloneRemoteFailed (.gitCloneFailed msg)) ∧
    ((getRecentCommitsSched env days repos order).1.getD i
        emptyRepoResult).commits = [] ∧
    ∀ j, j < repos.length → j ≠ i →
      (getRecentCommitsSched env days repos order).1.getD j
          emptyRepoResult =
        fetchTask env days (repos.getD j emptyRepo) := by
  have herr : (getRepoCommits env days [] (repos.getD i emptyRepo)).1 =
      .error (.cloneRemoteFailed (.gitCloneFailed msg)) := by
    rw [getRepoCommits_cloneFail env days [] (repos.getD i emptyRepo) msg
      hurl hmk hclone]
  have hslot := sched_getD env days repos order (perm_mem_order hperm) i hi
  have hferr := fetchTask_error env days (repos.getD i emptyRepo)
    (.cloneRemoteFailed (.gitCloneFailed msg)) herr
  refine ⟨sched_length env days repos order, ?_, ?_, ?_⟩
  · rw [hslot]
    exact hferr.1
  · rw [hslot]
    exact hferr.2
  · intro j hj hne
    exact sched_getD env days repos order (perm_mem_order hperm) j hj

/-- Witness for C9: in a three-descriptor batch with one failing remote,
that slot alone carries the authentication output inside the wrapped
clone error. -/
theorem clone_failure_isolated_witness :
    ((getRecentCommitsSched envW 1 reposIso [2, 0, 1]).1.getD 1
        emptyRepoResult).error =
      some (.cloneRemoteFailed (.gitCloneFailed cloneAuthMsg)) :=
  (clone_failure_isolated envW 1 reposIso [2, 0, 1] (by decide) 1
    (by decide) cloneAuthMsg (by decide) rfl rfl).2.1

/-! The admission semaphore of GetRecentCommits. -/

/-- Capacity of the admission gate: the channel of capacity 10. -/
def semCap : Nat := 10

/-- Phase of one fetch goroutine relative to the admission gate: not yet
through the acquire, holding a slot inside its git work (with the
eventual success of that work), or finished with the slot released by the
deferred receive. -/
inductive TaskPhase where
  | queued
  | working (ok : Bool)
  | finished (ok : Bool)
deriving DecidableEq, Repr

/-- Global state of the gate: slots held and the phase of each task. -/
structure SemState where
  sem : Nat
  tasks : List TaskPhase
deriving DecidableEq, Repr

def isWorking : TaskPhase → Bool
  | .working _ => true
  | _ => false

/-- Tasks currently past the gate and inside their git work. -/
def workingCount (s : SemState) : Nat := s.tasks.countP isWorking

/-- Start state: no slot held, every goroutine before its acquire. -/
def initSemState (n : Nat) : SemState :=
  { sem := 0, tasks := List.replicate n .queued }

/-- One scheduler step: a queued task acquires a slot (the channel send,
enabled only below capacity) and enters its git work, or a working task
completes either way and its deferred receive releases the slot. -/
inductive SemStep : SemState → SemState → Prop where
  | acquire (s : SemState) (i : Nat) (ok : Bool)
      (hqueued : s.tasks.getD i (.finished true) = .queued)
      (hroom : s.sem < semCap) :
      SemStep s { sem := s.sem + 1, tasks := s.tasks.set i (.working ok) }
  | release (s : SemState) (i : Nat) (ok : Bool)
      (hworking : s.tasks.getD i (.finished true) = .working ok) :
      SemStep s { sem := s.sem - 1, tasks := s.tasks.set i (.finished ok) }

/-- States reachable by some interleaving of the fetch goroutines. -/
inductive SemReachable (n : Nat) : SemState → Prop where
  | init : SemReachable n (initSemState n)
  | step {s t : SemState} : SemReachable n s → SemStep s t →
      SemReachable n t

theorem countP_set_getD (p : TaskPhase → Bool) :
    ∀ (l : List TaskPhase) (i : Nat) (a d : TaskPhase), i < l.length →
      (l.set i a).countP p + (if p (l.getD i d) then 1 else 0) =
        l.countP p + (if p a then 1 else 0) := by
  intro l
  induction l with
  | nil =>
    intro i a d hi
    simp at hi
  | cons x xs ih =>
    intro i a d hi
    cases i with
    | zero =>
      rw [List.set_cons_zero, List.getD_cons_zero, List.countP_cons,
        List.countP_cons]
      omega
    | succ n =>
      have hn : n < xs.length := by simpa using hi
      have := ih n a d hn
      rw [List.set_cons_succ, List.getD_cons_succ, List.countP_cons,
        List.countP_cons]
      omega

theorem getD_lt_length {l : List TaskPhase} {i : Nat} {x : TaskPhase}
    (hx : l.getD i (.finished true) = x) (hne : x ≠ .finished true) :
    i < l.length := by
  by_contra h
  push_neg at h
  rw [List.getD_eq_getElem?_getD, List.getElem?_eq_none h] at hx
  exact hne hx.symm

/-- The inductive invariant of the gate: the slots held count exactly the
working tasks, and they never exceed the capacity. -/
def semInv (s : SemState) : Prop :=
  workingCount s = s.sem ∧ s.sem ≤ semCap

theorem semInv_init (n : Nat) : semInv (initSemState n) := by
  constructor
  · simp only [workingCount, initSemState]
    rw [List.countP_eq_zero]
    intro a ha
    rw [List.eq_of_mem_replicate ha]
    simp [isWorking]
  · simp [initSemState, semCap]

theorem semInv_step {s t : SemState} (hinv : semInv s)
    (hstep : SemStep s t) : semInv t := by
  obtain ⟨hcnt, hcap⟩ := hinv
  cases hstep with
  | acquire i ok hq hroom =>
    have hi : i < s.tasks.length := getD_lt_length hq (by simp)
    have hcount := countP_set_getD isWorking s.tasks i (.working ok)
      (.finished true) hi
    rw [hq] at hcount
    simp [isWorking] at hcount
    constructor
    · show (s.tasks.set i (TaskPhase.working ok)).countP isWorking =
        s.sem + 1
      simp only [workingCount] at hcnt
      omega
    · show s.sem + 1 ≤ semCap
      omega
  | release i ok hw =>
    have hi : i < s.tasks.length := getD_lt_length hw (by simp)
    have hcount := countP_set_getD isWorking s.tasks i (.finished ok)
      (.finished true) hi
    rw [hw] at hcount
    simp [isWorking] at hcount
    constructor
    · show (s.tasks.set i (TaskPhase.finished ok)).countP isWorking =
        s.sem - 1
      simp only [workingCount] at hcnt
      omega
    · show s.sem - 1 ≤ semCap
      omega

theorem semInv_reachable (n : Nat) (s : SemState)
    (h : SemReachable n s) : semInv s := by
  induction h with
  | init => exact semInv_init n
  | step _ hstep ih => exact semInv_step ih hstep

/-- Claim C4: for every task count and every interleaving of acquisitions
and completions, at most 10 fetch tasks are past the admission gate inside
their git work in any reachable state; entering work is only possible
through an acquire below capacity, and a working task can always release
its slot, with either outcome of the work. -/
theorem admission_gate_bound (n : Nat) (s : SemState)
    (hreach : SemReachable n s) :
    workingCount s ≤ semCap ∧
    (∀ i ok, s.tasks.getD i (.finished true) = .working ok →
      SemStep s
        { sem := s.sem - 1, tasks := s.tasks.set i (.finished ok) }) := by
  have hinv := semInv_reachable n s hreach
  refine ⟨?_, fun i ok h => SemStep.release s i ok h⟩
  rw [hinv.1]
  exact hinv.2

/-- Witness for C4 at a twelve-task state after one acquisition. -/
theorem admission_gate_bound_witness :
    workingCount
      { sem := 1,
        tasks := (List.replicate 12 TaskPhase.queued).set 0
          (.working true) } ≤ semCap :=
  (admission_gate_bound 12 _
    (SemReachable.step SemReachable.init
      (SemStep.acquire (initSemState 12) 0 true (by decide) (by decide)))).1

/-! Cancellation. -/

def envCancelled : Env := { envW with ctxCancelled := true }

/-- Counterexample to C10: with the cancellation signal raised, a fetch
task that has not yet started its git work still opens its local
repository, performs the whole walk and returns its commits, with no
error at all, let alone one of a dedicated cancellation kind: the signal
is consulted neither at the admission gate nor at the open, the reference
resolution or the walk, and the error type of the fetch path has no
cancellation kind. -/
theorem cancellation_not_threaded_counterexample :
    envCancelled.ctxCancelled = true ∧
    (getRepoCommits envCancelled 1 [] repoLocalW).1 =
      .ok [mkCommit goCommitA, mkCommit goCommitB] ∧
    (fetchTask envCancelled 1 repoLocalW).error = none :=
  ⟨rfl, rfl, rfl⟩

/-- Claim C10 amended: the cancellation signal reaches only the clone
subprocess invocation. A fetch with an empty url never consults the flag,
its outcome is identical whether or not cancellation is raised (queued
local tasks do not skip their work and walks are not aborted); for a
remote fetch the flag is handed to the cloner, and a cloner failing under
cancellation surfaces as the ordinary wrapped clone error rather than a
distinguished cancellation kind. -/
theorem cancellation_clone_only
    (env : Env) (days : Int) (fs : List String) (repo : Repo) :
    (repo.url = "" → ∀ b,
      getRepoCommits { env with ctxCancelled := b } days fs repo =
        getRepoCommits env days fs repo) ∧
    (∀ msg, repo.url ≠ "" → env.mkdirTempOk = true →
      env.cloneOutcome env.ctxCancelled repo.url repo.branch = some msg →
      (getRepoCommits env days fs repo).1 =
        .error (.cloneRemoteFailed (.gitCloneFailed msg))) := by
  constructor
  · intro hurl b
    have hne : ¬ repo.url ≠ "" := by simp [hurl]
    unfold getRepoCommits
    rw [if_neg hne, if_neg hne]
    rfl
  · intro msg hurl hmk hclone
    rw [getRepoCommits_cloneFail env days fs repo msg hurl hmk hclone]

/-- Witness for the amended C10: raising the flag changes nothing for the
concrete local fetch. -/
theorem cancellation_clone_only_witness :
    getRepoCommits { envW with ctxCancelled := true } 1 [] repoLocalW =
      getRepoCommits envW 1 [] repoLocalW :=
  (cancellation_clone_only envW 1 [] repoLocalW).1 rfl true

end Repomon
